import Mathlib

/-!
The paginated fetch / filter / persist pipeline of imap-attachment-download.

A shallow embedding of `main.go`.  Go `uint32` values are natural numbers with
every addition and subtraction reduced modulo `2^32`.  Collaborators that live
outside the repository (the IMAP client, the regular-expression engine, the
operating system, the random source) are fields of an environment record: the
general theorems hold for all of their possible behaviours, and the runs on
concrete inputs use the sample collaborators defined below.
-/

namespace ImapAttachmentDownload

/-! ## Machine integers -/

/-- Addition on Go `uint32`: wraps around at `2^32`. -/
def addU32 (a b : Nat) : Nat := (a + b) % 4294967296

/-- Subtraction on Go `uint32`: wraps around at `2^32`. -/
def subU32 (a b : Nat) : Nat := (a + 4294967296 - b % 4294967296) % 4294967296

/-! ## Errors and outcomes -/

/-- Go `error` values: a leaf error, or `fmt.Errorf("<context>%w", inner)`. -/
inductive GoError where
  | leaf (msg : String)
  | wrap (context : String) (inner : GoError)
  deriving DecidableEq, Repr

/-- The text of `err.Error()`. -/
def GoError.Error : GoError → String
  | .leaf msg => msg
  | .wrap context inner => context ++ inner.Error

/-- The result of `errors.Unwrap(err)`. -/
def GoError.Unwrap : GoError → Option GoError
  | .leaf _ => none
  | .wrap _ inner => some inner

/-- How a call ends: `ok` is a `nil` error, `error e` is a returned error and
`fatal` is the end of the process (`log.Fatal`, or the run-time system giving up
on an allocation): nothing is returned. -/
inductive Result where
  | ok
  | error (e : GoError)
  | fatal
  deriving DecidableEq, Repr

/-! ## Pagination controller -/

/-- The end of the page that starts at `frm`: `to = from + pageSize`, lowered to
`mbox.Messages` when it exceeds it. -/
def pageEnd (count pageSize frm : Nat) : Nat :=
  if addU32 frm pageSize > count then count else addU32 frm pageSize

/-- The `for from <= mbox.Messages` loop of `DownloadAttachmentsFromMailbox`.
`page frm upto s` stands for the call `DownloadAttachmentsFromPage(client, frm, upto, config)`
run in state `s`.  The first component of the value is the list of `(from, to)`
arguments of the calls made, in call order (these are also the numbers printed by
the progress line).  `none` means that the fuel ran out before the loop ended. -/
def pagingLoop {σ : Type} (page : Nat → Nat → σ → Result × σ) (count pageSize : Nat) :
    Nat → Nat → σ → Option (List (Nat × Nat) × Result × σ)
  | 0, _, _ => none
  | fuel + 1, frm, s =>
    if frm ≤ count then
      let upto := pageEnd count pageSize frm
      match page frm upto s with
      | (Result.ok, s1) =>
        match pagingLoop page count pageSize fuel (addU32 frm pageSize) s1 with
        | none => none
        | some (calls, r, s2) => some ((frm, upto) :: calls, r, s2)
      | (Result.error e, s1) =>
        some ([(frm, upto)],
          Result.error (GoError.wrap "an error occurred when downloading attachments: " e), s1)
      | (Result.fatal, s1) => some ([(frm, upto)], Result.fatal, s1)
    else some ([], Result.ok, s)

/-- The capacity given to `make(chan *imap.Message, to-from)`. -/
def messagesCapacity (frm upto : Nat) : Nat := subU32 upto frm

/-- The number of sequence numbers in the inclusive IMAP range `frm:upto`
(`pageRange.AddRange(from, to)`), for `frm ≤ upto`. -/
def rangeSize (frm upto : Nat) : Nat := upto - frm + 1

/-! ## Data model -/

/-- One MIME part as the decoder hands it over: an attachment with the value of
`header.Filename()` and the bytes of `part.Body`, or any other part. -/
inductive Part where
  | attachment (filename : String) (content : List Nat)
  | other
  deriving DecidableEq, Repr

/-- What `msg.GetBody(&section)` and `mail.CreateReader` make of a message:
no body at all, a body that cannot be read as mail, or the parts that
`mr.NextPart()` yields followed by `io.EOF` (`last = none`) or by an error. -/
inductive Body where
  | missing
  | unreadable (e : GoError)
  | readable (parts : List Part) (last : Option GoError)
  deriving DecidableEq, Repr

/-- The fields of `imap.Message` that the program reads. -/
structure Message where
  Uid : Nat
  Date : Nat
  body : Body
  deriving DecidableEq, Repr

/-- The `Download` section of the configuration. -/
structure Download where
  AttachmentsDirectory : String
  PageSize : Nat
  Pattern : String
  deriving DecidableEq, Repr

/-- The configuration (connection and credentials play no part below). -/
structure Config where
  Download : Download
  Debug : Bool
  deriving DecidableEq, Repr

/-- Observable actions, in the order in which they happen. -/
inductive Event where
  | fetchIssued (frm upto capacity : Nat)
  | processed (uid : Nat)
  | fetchStatusRead
  | created (path : String)
  | wrote (path : String) (content : List Nat)
  | chtimes (path : String) (date : Nat)
  deriving DecidableEq, Repr

/-- The state threaded through a run: the actions so far and the number of
identifiers drawn from the random source. -/
structure World where
  trace : List Event
  uuids : Nat
  deriving DecidableEq, Repr

/-- Append one action to the trace. -/
def World.emit (w : World) (e : Event) : World := { w with trace := w.trace ++ [e] }

/-- The collaborators outside the repository.  Each may depend on the state in
which it is called.
* `matchString pattern s` is `regexp.MatchString(pattern, s)`;
* `newUUID k` is the 16 bytes of the `k`-th `uuid.NewRandom()` (a version 4
  identifier: the version and variant bits are set);
* `makeChan w capacity` tells whether `make(chan *imap.Message, capacity)` gets its
  buffer; when it does not, the run-time system ends the process;
* `create w path` is the error of `os.Create(path)`, `none` when the file was created;
* `copy w path content` is the error of `io.Copy(file, part.Body)`;
* `chtimes w path date` is the error of `os.Chtimes`;
* `fetch w frm upto` is the messages that `client.Fetch` delivers on the channel
  before closing it, and the error it then returns;
* `select w mailbox` is `client.Select(mailbox, false)`: the message count. -/
structure Env where
  matchString : String → String → Except GoError Bool
  newUUID : Nat → List Nat
  makeChan : World → Nat → Bool
  create : World → String → Option GoError
  copy : World → String → List Nat → Option GoError
  chtimes : World → String → Nat → Option GoError
  fetch : World → Nat → Nat → List Message × Option GoError
  select : World → String → Except GoError Nat

/-! ## Library functions on strings and paths -/

/-- Go `strings.Replace(s, old, new, -1)` for one-byte `old` and `new`: every
occurrence is replaced. -/
def strings.Replace (s : String) (old new : Char) : String :=
  String.mk (s.data.map fun c => if c = old then new else c)

/-- One lower-case hexadecimal digit (`hextable` of `encoding/hex`). -/
def hexDigit (n : Nat) : Char := "0123456789abcdef".data.getD (n % 16) '0'

/-- The text of `hex.Encode`: two digits per byte, high nibble first. -/
def encodeHex (bytes : List Nat) : List Char :=
  bytes.flatMap fun b => [hexDigit (b / 16), hexDigit b]

/-- The text of `uuid.UUID.String()`: `xxxxxxxx-xxxx-xxxx-xxxx-xxxxxxxxxxxx`. -/
def uuidString (u : List Nat) : String :=
  String.mk (encodeHex (u.take 4) ++ '-' :: encodeHex ((u.drop 4).take 2)
    ++ '-' :: encodeHex ((u.drop 6).take 2) ++ '-' :: encodeHex ((u.drop 8).take 2)
    ++ '-' :: encodeHex ((u.drop 10).take 6))

/-- The text of `fmt.Sprintf("unknown-file-%v", id)`. -/
def unknownFileName (u : List Nat) : String := "unknown-file-" ++ uuidString u

/-- Go `strings.Split(path, "/")` on the characters of a path. -/
def splitSlash : List Char → List (List Char)
  | [] => [[]]
  | c :: cs =>
    if c = '/' then [] :: splitSlash cs
    else
      match splitSlash cs with
      | [] => [[c]]
      | h :: t => (c :: h) :: t

/-- Whether a path starts with the separator. -/
def isRooted : List Char → Bool
  | c :: _ => c = '/'
  | [] => false

/-- One step of `filepath.Clean` (Unix) on the elements kept so far, last element
first: empty elements and `.` are dropped, `..` removes the element before it,
is dropped at the root, and is kept at the start of a relative path. -/
def cleanStep (rooted : Bool) (stack : List (List Char)) (elem : List Char) :
    List (List Char) :=
  if elem = [] ∨ elem = ['.'] then stack
  else if elem = ['.', '.'] then
    match stack with
    | [] => if rooted then [] else [elem]
    | top :: rest => if top = ['.', '.'] then elem :: stack else rest
  else elem :: stack

/-- The elements of the cleaned path, last element first. -/
def cleanStack (path : List Char) : List (List Char) :=
  (splitSlash path).foldl (cleanStep (isRooted path)) []

/-- The path text for a list of elements (last element first). -/
def renderPath (rooted : Bool) (stack : List (List Char)) : List Char :=
  if rooted then '/' :: List.intercalate ['/'] stack.reverse
  else if stack = [] then ['.']
  else List.intercalate ['/'] stack.reverse

/-- Go `filepath.Clean` with the Unix separator. -/
def filepath.Clean (path : String) : String :=
  String.mk (renderPath (isRooted path.data) (cleanStack path.data))

/-- Go `filepath.Join(dir, name)` with the Unix separator: empty arguments are
ignored and the rest is joined by `/` and cleaned. -/
def filepath.Join (dir name : String) : String :=
  if dir ≠ "" then filepath.Clean (dir ++ "/" ++ name)
  else if name ≠ "" then filepath.Clean name
  else ""

/-- A file name that is one ordinary path element. -/
def properName (n : String) : Prop :=
  n ≠ "" ∧ '/' ∉ n.data ∧ n ≠ "." ∧ n ≠ ".."

instance (n : String) : Decidable (properName n) := by
  unfold properName; infer_instance

/-- The path of the entry called `n` directly inside directory `dir`: the
elements of the cleaned `dir` followed by `n`. -/
def childPath (dir n : String) : String :=
  String.mk (renderPath (isRooted dir.data) (n.data :: cleanStack dir.data))

/-- The path `p` names an entry directly inside directory `dir`. -/
def directChild (dir p : String) : Prop :=
  ∃ n : String, properName n ∧ p = childPath dir n

/-! ## Attachment filter and persister -/

/-- The value of the variable `filename` when the path is built: the received
name with every `/` replaced by `_`, or, when that is empty, the placeholder made
from a fresh identifier. -/
def savedName (env : Env) (filename : String) (w : World) : String :=
  if strings.Replace filename '/' '_' = "" then unknownFileName (env.newUUID w.uuids)
  else strings.Replace filename '/' '_'

/-- The state after the name has been fixed: one identifier has been drawn when
the replaced name was empty. -/
def afterNaming (filename : String) (w : World) : World :=
  if strings.Replace filename '/' '_' = "" then { w with uuids := w.uuids + 1 } else w

/-- The path at which an attachment with an empty filename is saved in state `w`:
the destination directory joined with the placeholder made from the next
identifier. -/
def placeholderPath (env : Env) (config : Config) (w : World) : String :=
  filepath.Join config.Download.AttachmentsDirectory (unknownFileName (env.newUUID w.uuids))

/-- The Go function `SaveAttachmentFromMessage`, given the value of
`header.Filename()` and the bytes of `part.Body`. -/
def SaveAttachmentFromMessage (env : Env) (config : Config) (msg : Message)
    (filename : String) (content : List Nat) (w : World) : Option GoError × World :=
  match env.matchString config.Download.Pattern filename with
  | Except.error err =>
    (some (GoError.wrap ("failed to check pattern for filename " ++ filename ++ ": ") err), w)
  | Except.ok false => (none, w)
  | Except.ok true =>
    let name := savedName env filename w
    let w0 := afterNaming filename w
    let filePath := filepath.Join config.Download.AttachmentsDirectory name
    match env.create w0 filePath with
    | some err =>
      (some (GoError.wrap ("failed to create file " ++ filePath ++ ": ") err), w0)
    | none =>
      let w1 := w0.emit (Event.created filePath)
      match env.copy w1 filePath content with
      | some err =>
        (some (GoError.wrap ("failed to save attachment " ++ name ++ ": ") err), w1)
      | none =>
        let w2 := w1.emit (Event.wrote filePath content)
        match env.chtimes w2 filePath msg.Date with
        | some _ => (none, w2)
        | none => (none, w2.emit (Event.chtimes filePath msg.Date))

/-! ## Message decoder -/

/-- The `for` loop of `ProcessMessage` over the parts that `mr.NextPart()` yields. -/
def processParts (env : Env) (config : Config) (msg : Message) (last : Option GoError) :
    List Part → World → Result × World
  | [], w =>
    match last with
    | none => (Result.ok, w)
    | some err =>
      (Result.error (GoError.wrap
        ("failed to get next part of message " ++ toString msg.Uid ++ ": ") err), w)
  | Part.other :: rest, w => processParts env config msg last rest w
  | Part.attachment filename content :: rest, w =>
    match SaveAttachmentFromMessage env config msg filename content w with
    | (some err, w1) =>
      (Result.error (GoError.wrap "failed to save attachment: " err), w1)
    | (none, w1) => processParts env config msg last rest w1

/-- The Go function `ProcessMessage`. -/
def ProcessMessage (env : Env) (config : Config) (msg : Message) (w : World) :
    Result × World :=
  match msg.body with
  | Body.missing => (Result.fatal, w)
  | Body.unreadable _ => (Result.fatal, w)
  | Body.readable parts last => processParts env config msg last parts w

/-! ## Page fetch stream -/

/-- The `for msg := range messages` loop of `DownloadAttachmentsFromPage` over the
messages delivered on the channel, in arrival order. -/
def drainMessages (env : Env) (config : Config) : List Message → World → Result × World
  | [], w => (Result.ok, w)
  | msg :: rest, w =>
    match ProcessMessage env config msg w with
    | (Result.ok, w1) => drainMessages env config rest (w1.emit (Event.processed msg.Uid))
    | (Result.error err, w1) =>
      (Result.error (GoError.wrap
        ("failed to process message " ++ toString msg.Uid ++ ": ") err), w1)
    | (Result.fatal, w1) => (Result.fatal, w1)

/-- The Go function `DownloadAttachmentsFromPage`.  The message channel is made
first, with capacity `to-from`; when that allocation fails the process ends before
any fetch is issued.  The fetch runs in its own goroutine; the consumer sees exactly
the delivered messages in order and, once the channel is closed, the status on
`done`. -/
def DownloadAttachmentsFromPage (env : Env) (config : Config) (frm upto : Nat)
    (w : World) : Result × World :=
  if env.makeChan w (messagesCapacity frm upto) then
    let w0 := w.emit (Event.fetchIssued frm upto (messagesCapacity frm upto))
    match drainMessages env config (env.fetch w frm upto).1 w0 with
    | (Result.ok, w1) =>
      let w2 := w1.emit Event.fetchStatusRead
      match (env.fetch w frm upto).2 with
      | some err =>
        (Result.error (GoError.wrap
          ("failed to fetch messages in range " ++ toString frm ++ " - " ++ toString upto
            ++ ": ") err), w2)
      | none => (Result.ok, w2)
    | (Result.error err, w1) => (Result.error err, w1)
    | (Result.fatal, w1) => (Result.fatal, w1)
  else (Result.fatal, w)

/-- The Go function `DownloadAttachmentsFromMailbox`. -/
def DownloadAttachmentsFromMailbox (env : Env) (config : Config) (mailbox : String)
    (fuel : Nat) (w : World) : Option (List (Nat × Nat) × Result × World) :=
  match env.select w mailbox with
  | Except.error _ => some ([], Result.fatal, w)
  | Except.ok count =>
    pagingLoop (DownloadAttachmentsFromPage env config) count config.Download.PageSize fuel 1 w

/-! ## Sample collaborators for concrete runs -/

/-- A page that always succeeds and leaves the state alone. -/
def pageOk : Nat → Nat → Unit → Result × Unit := fun _ _ s => (Result.ok, s)

/-- Whether the text `s` starts with the text `p`. -/
def startsWith : List Char → List Char → Bool
  | [], _ => true
  | _ :: _, [] => false
  | a :: p, b :: s => a = b && startsWith p s

/-- Whether the text `p` occurs inside the text `s`. -/
def occursIn (p : List Char) : List Char → Bool
  | [] => startsWith p []
  | c :: s => startsWith p (c :: s) || occursIn p s

/-- A pattern made of letters, digits and `/` only.  For such a pattern
`regexp.MatchString` is a substring search. -/
def literalPattern (pattern : String) : Bool :=
  pattern.data.all fun c => c.isAlphanum || c = '/'

/-- A stand-in for `regexp.MatchString` that is exact on literal patterns and
reports every other pattern as an error. -/
def literalMatch (pattern s : String) : Except GoError Bool :=
  if literalPattern pattern then Except.ok (occursIn pattern.data s.data)
  else Except.error (GoError.leaf "pattern outside the literal fragment")

/-- An environment in which the file system and the server never fail and the
mailbox holds no message.  The `k`-th identifier is
`12345678-9abc-4def-8123-456789abcd` followed by the two digits of `k`, and a
channel gets its buffer when it has at most `2^30` slots (8 GiB of message
pointers). -/
def quietEnv : Env where
  matchString := literalMatch
  newUUID := fun k => [18, 52, 86, 120, 154, 188, 77, 239, 129, 35, 69, 103, 137, 171, 205, k % 256]
  makeChan := fun _ capacity => decide (capacity ≤ 1073741824)
  create := fun _ _ => none
  copy := fun _ _ _ => none
  chtimes := fun _ _ _ => none
  fetch := fun _ _ _ => ([], none)
  select := fun _ _ => Except.ok 0

/-- The quiet environment on a file system where `out` and `.` are directories:
`os.Create` refuses to open a directory for writing. -/
def directoryEnv : Env :=
  { quietEnv with
    create := fun _ path =>
      if path = "out" ∨ path = "." then some (GoError.leaf "is a directory") else none }

/-- The quiet environment with a mailbox of `count` messages (none is delivered). -/
def mailboxEnv (count : Nat) : Env := { quietEnv with select := fun _ _ => Except.ok count }

/-- A configuration with destination `out` and the given pattern and page size. -/
def sampleConfig (pattern : String) (pageSize : Nat) : Config :=
  { Download := { AttachmentsDirectory := "out", PageSize := pageSize, Pattern := pattern },
    Debug := false }

/-- A server that delivers two messages, the first with the attachments
`report.pdf` and `image.png`, and then reports that the connection was reset. -/
def resetEnv : Env :=
  { quietEnv with
    fetch := fun _ _ _ =>
      ([{ Uid := 11, Date := 1700000000,
          body := Body.readable [Part.other, Part.attachment "report.pdf" [37, 80],
            Part.attachment "image.png" [137, 80]] none },
        { Uid := 12, Date := 1700000001, body := Body.readable [Part.other] none }],
       some (GoError.leaf "connection reset")) }

/-- Whether an event is an action on the file system. -/
def Event.isFile : Event → Bool
  | Event.created _ => true
  | Event.wrote _ _ => true
  | Event.chtimes _ _ => true
  | _ => false

/-- The messages marked as processed in a list of events, in order. -/
def processedUids (evs : List Event) : List Nat :=
  evs.filterMap fun e =>
    match e with
    | Event.processed uid => some uid
    | _ => none

/-- The events of `w2` that came after the state `w1`. -/
def eventsSince (w1 w2 : World) : List Event := w2.trace.drop w1.trace.length

/-- The calls and the outcome of a finished run, without the final state. -/
def summary {σ : Type} (run : Option (List (Nat × Nat) × Result × σ)) :
    Option (List (Nat × Nat) × Result) :=
  run.map fun r => (r.1, r.2.1)

/-- A message with no parts. -/
def sampleMessage : Message := { Uid := 7, Date := 1700000000, body := Body.readable [] none }

/-- The state at the start of a run. -/
def World.start : World := { trace := [], uuids := 0 }

/-! ## The paging loop: general facts -/

/-- One iteration of the paging loop. -/
theorem pagingLoop_succ {σ : Type} (page : Nat → Nat → σ → Result × σ)
    (count pageSize fuel frm : Nat) (s : σ) :
    pagingLoop page count pageSize (fuel + 1) frm s =
      if frm ≤ count then
        match page frm (pageEnd count pageSize frm) s with
        | (Result.ok, s1) =>
          match pagingLoop page count pageSize fuel (addU32 frm pageSize) s1 with
          | none => none
          | some (calls, r, s2) => some ((frm, pageEnd count pageSize frm) :: calls, r, s2)
        | (Result.error e, s1) =>
          some ([(frm, pageEnd count pageSize frm)],
            Result.error (GoError.wrap "an error occurred when downloading attachments: " e), s1)
        | (Result.fatal, s1) => some ([(frm, pageEnd count pageSize frm)], Result.fatal, s1)
      else some ([], Result.ok, s) := rfl

/-- More fuel does not change the outcome of a run that has ended. -/
theorem pagingLoop_fuel_mono {σ : Type} (page : Nat → Nat → σ → Result × σ)
    (count pageSize : Nat) :
    ∀ (fuel extra frm : Nat) (s : σ) (out : List (Nat × Nat) × Result × σ),
      pagingLoop page count pageSize fuel frm s = some out →
      pagingLoop page count pageSize (fuel + extra) frm s = some out := by
  intro fuel
  induction fuel with
  | zero => intro extra frm s out h; simp [pagingLoop] at h
  | succ n ih =>
    intro extra frm s out h
    have e : n + 1 + extra = (n + extra) + 1 := by omega
    rw [e, pagingLoop_succ]
    rw [pagingLoop_succ] at h
    by_cases hc : frm ≤ count
    · simp only [hc, if_true] at h ⊢
      rcases hp : page frm (pageEnd count pageSize frm) s with ⟨r, s1⟩
      rw [hp] at h
      cases r with
      | ok =>
        simp only at h ⊢
        cases hr : pagingLoop page count pageSize n (addU32 frm pageSize) s1 with
        | none => simp [hr] at h
        | some o =>
          rw [ih extra _ _ _ hr]
          simpa [hr] using h
      | error e1 => exact h
      | fatal => exact h
    · simp only [hc, if_false] at h ⊢
      exact h

/-- With a mailbox of `2^32 - 1` messages the page end is never lowered. -/
theorem pageEnd_full_mailbox (pageSize frm : Nat) :
    pageEnd 4294967295 pageSize frm = addU32 frm pageSize := by
  unfold pageEnd addU32
  have : (frm + pageSize) % 4294967296 < 4294967296 := Nat.mod_lt _ (by decide)
  rw [if_neg (by omega)]

/-- With a mailbox of `2^32 - 1` messages the loop condition `from <= mbox.Messages`
holds for every `uint32` value of `from`: if every page that is asked for succeeds,
the loop never ends. -/
theorem pagingLoop_full_mailbox_diverges {σ : Type} (page : Nat → Nat → σ → Result × σ)
    (pageSize : Nat)
    (hok : ∀ a s, a < 4294967296 → (page a (addU32 a pageSize) s).1 = Result.ok) :
    ∀ (fuel frm : Nat) (s : σ), frm < 4294967296 →
      pagingLoop page 4294967295 pageSize fuel frm s = none := by
  intro fuel
  induction fuel with
  | zero => intro frm s _; rfl
  | succ n ih =>
    intro frm s hf
    rw [pagingLoop_succ]
    have hc : frm ≤ 4294967295 := by omega
    simp only [hc, if_true, pageEnd_full_mailbox]
    rcases hp : page frm (addU32 frm pageSize) s with ⟨r, s1⟩
    have h1 := hok frm s hf
    rw [hp] at h1
    simp only at h1
    subst h1
    simp only
    rw [ih _ s1 (by unfold addU32; omega)]

/-- Without wrap-around the page that starts at `frm` ends at `frm + pageSize`,
lowered to the message count. -/
theorem pageEnd_eq_min (count pageSize frm : Nat) (hno : count + pageSize < 4294967296)
    (hf : frm ≤ count) : pageEnd count pageSize frm = min (frm + pageSize) count := by
  have e : addU32 frm pageSize = frm + pageSize := by
    unfold addU32
    exact Nat.mod_eq_of_lt (by omega)
  unfold pageEnd
  rw [e]
  split <;> omega

/-- Without wrap-around the loop ends: `count + 2` iterations are always enough. -/
theorem pagingLoop_terminates {σ : Type} (page : Nat → Nat → σ → Result × σ)
    (count pageSize : Nat) (hpos : 0 < pageSize) (hno : count + pageSize < 4294967296) :
    ∀ (fuel frm : Nat) (s : σ), count + 1 - frm < fuel →
      ∃ out, pagingLoop page count pageSize fuel frm s = some out := by
  intro fuel
  induction fuel with
  | zero => intro frm s h; omega
  | succ n ih =>
    intro frm s h
    rw [pagingLoop_succ]
    by_cases hc : frm ≤ count
    · simp only [hc, if_true]
      have e : addU32 frm pageSize = frm + pageSize := by
        unfold addU32
        exact Nat.mod_eq_of_lt (by omega)
      rcases hp : page frm (pageEnd count pageSize frm) s with ⟨r, s1⟩
      cases r with
      | ok =>
        obtain ⟨out, ho⟩ := ih (addU32 frm pageSize) s1 (by rw [e]; omega)
        simp only [ho]
        exact ⟨_, rfl⟩
      | error e1 => exact ⟨_, rfl⟩
      | fatal => exact ⟨_, rfl⟩
    · simp only [hc, if_false]
      exact ⟨_, rfl⟩

/-- Without wrap-around the `i`-th page fetched is
`(frm + i * pageSize, min (frm + (i + 1) * pageSize) count)`: it starts within the
mailbox, exactly where the page before it ended. -/
theorem pagingLoop_calls {σ : Type} (page : Nat → Nat → σ → Result × σ)
    (count pageSize : Nat) (hno : count + pageSize < 4294967296) :
    ∀ (fuel frm : Nat) (s : σ) (calls : List (Nat × Nat)) (r : Result) (s1 : σ),
      pagingLoop page count pageSize fuel frm s = some (calls, r, s1) →
      ∀ i, i < calls.length →
        calls[i]? = some (frm + i * pageSize, min (frm + (i + 1) * pageSize) count)
        ∧ frm + i * pageSize ≤ count := by
  intro fuel
  induction fuel with
  | zero => intro frm s calls r s1 h; simp [pagingLoop] at h
  | succ n ih =>
    intro frm s calls r s1 h i hi
    rw [pagingLoop_succ] at h
    by_cases hc : frm ≤ count
    · simp only [hc, if_true] at h
      have e : addU32 frm pageSize = frm + pageSize := by
        unfold addU32
        exact Nat.mod_eq_of_lt (by omega)
      have hend := pageEnd_eq_min count pageSize frm hno hc
      rcases hp : page frm (pageEnd count pageSize frm) s with ⟨r0, s0⟩
      rw [hp] at h
      cases r0 with
      | ok =>
        simp only at h
        cases hr : pagingLoop page count pageSize n (addU32 frm pageSize) s0 with
        | none => simp [hr] at h
        | some o =>
          obtain ⟨calls1, r1, s2⟩ := o
          simp only [hr, Option.some.injEq, Prod.mk.injEq] at h
          obtain ⟨h1, -, -⟩ := h
          subst h1
          cases i with
          | zero => simp [hend, hc]
          | succ j =>
            have hj : j < calls1.length := by simpa using hi
            obtain ⟨g1, g2⟩ := ih _ _ _ _ _ hr j hj
            rw [e] at g1 g2
            refine ⟨?_, by rw [Nat.add_mul]; omega⟩
            simp only [List.getElem?_cons_succ, g1, Option.some.injEq, Prod.mk.injEq]
            constructor
            · rw [Nat.add_mul]; omega
            · congr 1
              rw [Nat.add_mul (j + 1) 1, Nat.add_mul j 1]; omega
      | error e1 =>
        simp only [Option.some.injEq, Prod.mk.injEq] at h
        obtain ⟨h1, -, -⟩ := h
        subst h1
        have : i = 0 := by simpa using hi
        subst this
        simp [hend, hc]
      | fatal =>
        simp only [Option.some.injEq, Prod.mk.injEq] at h
        obtain ⟨h1, -, -⟩ := h
        subst h1
        have : i = 0 := by simpa using hi
        subst this
        simp [hend, hc]
    · simp only [hc, if_false, Option.some.injEq, Prod.mk.injEq] at h
      obtain ⟨h1, -, -⟩ := h
      subst h1
      simp at hi

/-- Without wrap-around a run that ends with `nil` has made
`(count + pageSize - frm) / pageSize` calls; from `frm = 1` that is `ceil(count / pageSize)`. -/
theorem pagingLoop_call_count {σ : Type} (page : Nat → Nat → σ → Result × σ)
    (count pageSize : Nat) (hpos : 0 < pageSize) (hno : count + pageSize < 4294967296) :
    ∀ (fuel frm : Nat) (s : σ) (calls : List (Nat × Nat)) (s1 : σ),
      pagingLoop page count pageSize fuel frm s = some (calls, Result.ok, s1) →
      calls.length = (count + pageSize - frm) / pageSize := by
  intro fuel
  induction fuel with
  | zero => intro frm s calls s1 h; simp [pagingLoop] at h
  | succ n ih =>
    intro frm s calls s1 h
    rw [pagingLoop_succ] at h
    by_cases hc : frm ≤ count
    · simp only [hc, if_true] at h
      have e : addU32 frm pageSize = frm + pageSize := by
        unfold addU32
        exact Nat.mod_eq_of_lt (by omega)
      rcases hp : page frm (pageEnd count pageSize frm) s with ⟨r0, s0⟩
      rw [hp] at h
      cases r0 with
      | ok =>
        simp only at h
        cases hr : pagingLoop page count pageSize n (addU32 frm pageSize) s0 with
        | none => simp [hr] at h
        | some o =>
          obtain ⟨calls1, r1, s2⟩ := o
          simp only [hr, Option.some.injEq, Prod.mk.injEq] at h
          obtain ⟨h1, h2, -⟩ := h
          subst h1 h2
          have g := ih _ _ _ _ hr
          rw [e] at g
          have e2 : count + pageSize - frm = (count - frm) + pageSize := by omega
          have e3 : count + pageSize - (frm + pageSize) = count - frm := by omega
          rw [List.length_cons, g, e2, e3, Nat.add_div_right _ hpos]
      | error e1 => simp at h
      | fatal => simp at h
    · simp only [hc, if_false, Option.some.injEq, Prod.mk.injEq] at h
      obtain ⟨h1, -, -⟩ := h
      subst h1
      have : count + pageSize - frm < pageSize := by omega
      simp [Nat.div_eq_of_lt this]

/-- The loop stops at the first page that does not succeed: in a finished run every
call but the last returned `nil`; the run returns `nil` exactly when the last call
did too (or none was made), and otherwise the error of the last call, wrapped. -/
theorem pagingLoop_stops_at_first_failure (outcome : Nat → Nat → Result)
    (count pageSize : Nat) :
    ∀ (fuel frm : Nat) (calls : List (Nat × Nat)) (r : Result),
      pagingLoop (fun a b (s : Unit) => (outcome a b, s)) count pageSize fuel frm ()
        = some (calls, r, ()) →
      (∀ c ∈ calls.dropLast, outcome c.1 c.2 = Result.ok)
      ∧ (r = Result.ok ↔ ∀ c ∈ calls, outcome c.1 c.2 = Result.ok)
      ∧ (∀ err, r = Result.error err → ∃ c inner, calls.getLast? = some c
          ∧ outcome c.1 c.2 = Result.error inner
          ∧ err = GoError.wrap "an error occurred when downloading attachments: " inner) := by
  intro fuel
  induction fuel with
  | zero => intro frm calls r h; simp [pagingLoop] at h
  | succ n ih =>
    intro frm calls r h
    rw [pagingLoop_succ] at h
    by_cases hc : frm ≤ count
    · simp only [hc, if_true] at h
      cases ho : outcome frm (pageEnd count pageSize frm) with
      | ok =>
        simp only [ho] at h
        cases hr : pagingLoop (fun a b (s : Unit) => (outcome a b, s)) count pageSize n
            (addU32 frm pageSize) () with
        | none => simp [hr] at h
        | some o =>
          obtain ⟨calls1, r1, s2⟩ := o
          simp only [hr, Option.some.injEq, Prod.mk.injEq] at h
          obtain ⟨h1, h2, -⟩ := h
          subst h1 h2
          obtain ⟨g1, g2, g3⟩ := ih _ _ _ hr
          refine ⟨?_, ?_, ?_⟩
          · intro c hcm
            cases calls1 with
            | nil => simp at hcm
            | cons x xs =>
              rw [List.dropLast_cons₂] at hcm
              rcases List.mem_cons.mp hcm with hm | hm
              · subst hm; exact ho
              · exact g1 c hm
          · rw [g2]
            simp [ho]
          · intro err he
            obtain ⟨c, inner, k1, k2, k3⟩ := g3 err he
            refine ⟨c, inner, ?_, k2, k3⟩
            cases calls1 with
            | nil => simp at k1
            | cons x xs => rw [List.getLast?_cons_cons]; exact k1
      | error e1 =>
        simp only [ho, Option.some.injEq, Prod.mk.injEq] at h
        obtain ⟨h1, h2, -⟩ := h
        subst h1 h2
        refine ⟨by simp, by simp [ho], ?_⟩
        intro err he
        exact ⟨_, e1, rfl, ho, by simpa using he.symm⟩
      | fatal =>
        simp only [ho, Option.some.injEq, Prod.mk.injEq] at h
        obtain ⟨h1, h2, -⟩ := h
        subst h1 h2
        exact ⟨by simp, by simp [ho], by simp⟩
    · simp only [hc, if_false, Option.some.injEq, Prod.mk.injEq] at h
      obtain ⟨h1, h2, -⟩ := h
      subst h1 h2
      exact ⟨by simp, by simp, by simp⟩

/-- For every range within `uint32` the channel capacity `to - from` is one less
than the number of messages in the inclusive range. -/
theorem messagesCapacity_succ (frm upto : Nat) (h : frm ≤ upto) (hu : upto < 4294967296) :
    messagesCapacity frm upto + 1 = rangeSize frm upto := by
  unfold messagesCapacity subU32 rangeSize
  have e1 : frm % 4294967296 = frm := Nat.mod_eq_of_lt (by omega)
  rw [e1]
  have e2 : upto + 4294967296 - frm = (upto - frm) + 4294967296 := by omega
  rw [e2, Nat.add_mod_right, Nat.mod_eq_of_lt (by omega)]

/-! ## Pagination: what the code does on concrete mailboxes -/

/-- C1: with 250 messages and page size 100 the pages fetched are (1,101), (101,201),
(201,250): each page after the first starts at the previous page's end, not one
past it, so sequence numbers 101 and 201 are fetched twice. -/
theorem C1_pages_share_an_endpoint :
    summary (DownloadAttachmentsFromMailbox (mailboxEnv 250) (sampleConfig "pdf" 100)
      "INBOX" 4 World.start)
      = some ([(1, 101), (101, 201), (201, 250)], Result.ok) := by
  decide

/-- C2: with 250 messages and page size 100 the pages fetched span 101, 101 and 50
sequence numbers: a full page holds one message more than the page size. -/
theorem C2_full_page_spans_one_more :
    (summary (DownloadAttachmentsFromMailbox (mailboxEnv 250) (sampleConfig "pdf" 100)
        "INBOX" 4 World.start)).map
        (fun r => r.1.map fun range => rangeSize range.1 range.2)
      = some [101, 101, 50] := by
  decide

/-- C3: with 5 messages and page size 4294967295 the sum `from + pageSize` wraps
around to 0, which is not above the count, so the first page is not lowered: whatever
the page then does, the first call is `DownloadAttachmentsFromPage(client, 1, 0, config)`,
a range with `from > to`, and a page that succeeds is followed by one that starts at
`from = 0`.  The channel capacity `to-from` of that first call is 4294967295; where
such a channel cannot be allocated the run ends inside the first call, before any
fetch is issued, and no message of 1..5 is fetched. -/
theorem C3_wrapped_first_page :
    pageEnd 5 4294967295 1 = 0
    ∧ messagesCapacity 1 0 = 4294967295
    ∧ (∀ (σ : Type) (page : Nat → Nat → σ → Result × σ) (s : σ) (fuel : Nat),
        pagingLoop page 5 4294967295 (fuel + 1) 1 s =
          match page 1 0 s with
          | (Result.ok, s1) =>
            match pagingLoop page 5 4294967295 fuel 0 s1 with
            | none => none
            | some (calls, r, s2) => some ((1, 0) :: calls, r, s2)
          | (Result.error e, s1) =>
            some ([(1, 0)],
              Result.error (GoError.wrap "an error occurred when downloading attachments: " e),
              s1)
          | (Result.fatal, s1) => some ([(1, 0)], Result.fatal, s1))
    ∧ ∀ fuel : Nat,
        DownloadAttachmentsFromMailbox (mailboxEnv 5) (sampleConfig "pdf" 4294967295) "INBOX"
          (fuel + 1) World.start
          = some ([(1, 0)], Result.fatal, World.start) :=
  ⟨by decide, by decide, fun _ _ _ _ => rfl, fun _ => rfl⟩

/-- In the quiet environment with a mailbox of `2^32 - 1` messages and page size 100
every page that the loop asks for succeeds: its channel has capacity 100. -/
theorem full_mailbox_page_ok (a : Nat) (s : World) :
    (DownloadAttachmentsFromPage (mailboxEnv 4294967295) (sampleConfig "pdf" 100) a
      (addU32 a 100) s).1 = Result.ok := by
  have hcap : messagesCapacity a (addU32 a 100) = 100 := by
    unfold messagesCapacity subU32 addU32
    omega
  simp [DownloadAttachmentsFromPage, hcap, mailboxEnv, quietEnv, drainMessages]

/-- C7: with a mailbox of 4294967295 messages and page size 100, in an environment
where every page succeeds, `DownloadAttachmentsFromMailbox` never returns, however
much fuel it is given: `from` wraps around below the message count instead of
passing it.  (A run ends as soon as a page fails, so a run that is still going
after every number of iterations has seen only pages that succeeded.) -/
theorem C7_full_mailbox_never_returns :
    ∀ fuel : Nat,
      DownloadAttachmentsFromMailbox (mailboxEnv 4294967295) (sampleConfig "pdf" 100) "INBOX"
        fuel World.start = none :=
  fun fuel =>
    pagingLoop_full_mailbox_diverges
      (DownloadAttachmentsFromPage (mailboxEnv 4294967295) (sampleConfig "pdf" 100)) 100
      (fun a s _ => full_mailbox_page_ok a s) fuel 1 World.start (by decide)

/-- C9: for the page 1..101 the message channel is created with capacity 100 while
the page holds 101 messages, and for a page of one message the channel is unbuffered. -/
theorem C9_capacity_one_short :
    (DownloadAttachmentsFromPage quietEnv (sampleConfig "pdf" 100) 1 101 World.start).2.trace
        = [Event.fetchIssued 1 101 100, Event.fetchStatusRead]
      ∧ rangeSize 1 101 = 101
      ∧ messagesCapacity 5 5 = 0 ∧ rangeSize 5 5 = 1 := by
  decide

/-- C10: with 4294967295 messages and page size 1, every page succeeding, the paging
loop never terminates: after the page at `from = 4294967295` the sum `from + pageSize`
wraps around to 0 and `from <= mbox.Messages` holds again, where the claim has the
loop end after `ceil(4294967295 / 1) = 4294967295` calls. -/
theorem C10_full_mailbox_never_terminates :
    ∀ fuel : Nat, pagingLoop pageOk 4294967295 1 fuel 1 () = none :=
  fun fuel =>
    pagingLoop_full_mailbox_diverges pageOk 1 (fun _ _ _ => rfl) fuel 1 () (by decide)

/-! ## File names and paths -/

/-- After `strings.Replace(filename, "/", "_", -1)` no `/` is left. -/
theorem replace_has_no_slash (s : String) : '/' ∉ (strings.Replace s '/' '_').data := by
  simp only [strings.Replace, List.mem_map, not_exists, not_and]
  intro c _
  by_cases h : c = '/'
  · simp [h]
  · simp [h]

/-- No hexadecimal digit is the separator. -/
theorem hexDigit_ne_slash (n : Nat) : hexDigit n ≠ '/' := by
  have key : ∀ k, k < 16 → "0123456789abcdef".data.getD k '0' ≠ '/' := by decide
  exact key (n % 16) (Nat.mod_lt _ (by decide))

/-- The text of `hex.Encode` holds no separator. -/
theorem encodeHex_no_slash (bytes : List Nat) : '/' ∉ encodeHex bytes := by
  simp only [encodeHex, List.mem_flatMap, not_exists, not_and]
  intro b _ h
  simp only [List.mem_cons, List.mem_singleton, List.not_mem_nil, or_false] at h
  rcases h with h | h
  · exact hexDigit_ne_slash _ h.symm
  · exact hexDigit_ne_slash _ h.symm

/-- The placeholder name is one ordinary path element. -/
theorem unknownFileName_proper (u : List Nat) : properName (unknownFileName u) := by
  have hd : (unknownFileName u).data = "unknown-file-".data ++ (uuidString u).data := by
    simp [unknownFileName, String.data_append]
  have hne : ∀ t : String, (∀ tl, t.data ≠ 'u' :: tl) → unknownFileName u ≠ t := by
    intro t ht e
    rw [e] at hd
    exact ht _ hd
  refine ⟨hne _ (by intro tl; simp), ?_, hne _ (by intro tl; simp), hne _ (by intro tl; simp)⟩
  rw [hd]
  simp only [uuidString, List.mem_append, List.mem_cons, not_or]
  have h := encodeHex_no_slash
  refine ⟨by decide, ?_⟩
  simp [h]

/-- Splitting never yields an empty list of elements. -/
theorem splitSlash_ne_nil (p : List Char) : splitSlash p ≠ [] := by
  cases p with
  | nil => simp [splitSlash]
  | cons c cs =>
    unfold splitSlash
    by_cases h : c = '/'
    · simp [h]
    · simp only [h, if_false]
      cases splitSlash cs <;> simp

/-- A text without separator is a single element. -/
theorem splitSlash_of_no_slash (n : List Char) (h : '/' ∉ n) : splitSlash n = [n] := by
  induction n with
  | nil => rfl
  | cons c cs ih =>
    have hc : c ≠ '/' := fun e => h (by simp [e])
    have hcs : '/' ∉ cs := fun e => h (by simp [e])
    unfold splitSlash
    simp [hc, ih hcs]

/-- Splitting `d/n` gives the elements of `d` followed by `n`. -/
theorem splitSlash_append (d n : List Char) (h : '/' ∉ n) :
    splitSlash (d ++ '/' :: n) = splitSlash d ++ [n] := by
  induction d with
  | nil => simp [splitSlash, splitSlash_of_no_slash n h]
  | cons c cs ih =>
    by_cases hc : c = '/'
    · simp [splitSlash, hc, ih]
    · have e1 : splitSlash (c :: cs ++ '/' :: n)
          = match splitSlash (cs ++ '/' :: n) with
            | [] => [[c]]
            | x :: t => (c :: x) :: t := by
        simp [splitSlash, hc]
      have e2 : splitSlash (c :: cs)
          = match splitSlash cs with
            | [] => [[c]]
            | x :: t => (c :: x) :: t := by
        simp [splitSlash, hc]
      rw [e1, e2, ih]
      cases hs : splitSlash cs with
      | nil => exact absurd hs (splitSlash_ne_nil cs)
      | cons x t => simp

/-- An ordinary element is pushed as it is. -/
theorem cleanStep_ordinary (rooted : Bool) (stack : List (List Char)) (n : List Char)
    (h0 : n ≠ []) (h1 : n ≠ ['.']) (h2 : n ≠ ['.', '.']) :
    cleanStep rooted stack n = n :: stack := by
  simp [cleanStep, h0, h1, h2]

/-- Joining a directory with one ordinary file name gives the entry of that name
directly inside the directory. -/
theorem Join_eq_childPath (dir n : String) (h : properName n) :
    filepath.Join dir n = childPath dir n := by
  obtain ⟨h0, hs, h1, h2⟩ := h
  have d0 : n.data ≠ [] := fun e => h0 (String.ext e)
  have d1 : n.data ≠ ['.'] := fun e => h1 (String.ext e)
  have d2 : n.data ≠ ['.', '.'] := fun e => h2 (String.ext e)
  unfold filepath.Join childPath filepath.Clean
  by_cases hd : dir = ""
  · subst hd
    have hr : isRooted n.data = false := by
      cases hn : n.data with
      | nil => rfl
      | cons c cs =>
        have : c ≠ '/' := fun e => hs (by simp [hn, e])
        simp [isRooted, this]
    have c1 : cleanStack n.data = [n.data] := by
      simp only [cleanStack, splitSlash_of_no_slash _ hs, List.foldl_cons, List.foldl_nil,
        cleanStep_ordinary _ _ _ d0 d1 d2]
    have c2 : cleanStack "".data = [] := by decide
    have c3 : isRooted "".data = false := rfl
    simp only [ne_eq, not_true_eq_false, if_false, h0, not_false_eq_true, if_true]
    rw [c1, hr, c2, c3]
  · have dd : dir.data ≠ [] := fun e => hd (String.ext e)
    have hdata : (dir ++ "/" ++ n).data = dir.data ++ '/' :: n.data := by
      simp [String.data_append]
    have hr : isRooted (dir.data ++ '/' :: n.data) = isRooted dir.data := by
      cases hdd : dir.data with
      | nil => exact absurd hdd dd
      | cons c cs => rfl
    simp only [hd, ne_eq, not_false_eq_true, if_true, hdata, hr, cleanStack,
      splitSlash_append dir.data n.data hs, List.foldl_append, List.foldl_cons, List.foldl_nil,
      cleanStep_ordinary _ _ _ d0 d1 d2]

/-! ## Attachment filter and persister -/

/-- The name that is saved holds no separator. -/
theorem savedName_no_slash (env : Env) (filename : String) (w : World) :
    '/' ∉ (savedName env filename w).data := by
  unfold savedName
  split
  · exact (unknownFileName_proper _).2.1
  · exact replace_has_no_slash filename

/-- The name that is saved is never empty. -/
theorem savedName_ne_empty (env : Env) (filename : String) (w : World) :
    savedName env filename w ≠ "" := by
  unfold savedName
  split
  · exact (unknownFileName_proper _).1
  · assumption

/-- Fixing the name leaves the trace alone. -/
theorem afterNaming_trace (filename : String) (w : World) :
    (afterNaming filename w).trace = w.trace := by
  unfold afterNaming
  split <;> rfl

/-- The events since a state, when the trace has only grown. -/
theorem eventsSince_of_append (w1 w2 : World) (evs : List Event)
    (h : w2.trace = w1.trace ++ evs) : eventsSince w1 w2 = evs := by
  simp [eventsSince, h]

/-- A matching attachment whose file is created and copied: the call returns `nil`
and adds the creation and the write at `Join(dir, savedName)`, followed at most by
the time stamp. -/
theorem save_of_match (env : Env) (config : Config) (msg : Message) (filename : String)
    (content : List Nat) (w : World)
    (hm : env.matchString config.Download.Pattern filename = Except.ok true)
    (hc : env.create (afterNaming filename w)
      (filepath.Join config.Download.AttachmentsDirectory (savedName env filename w)) = none)
    (hcp : env.copy ((afterNaming filename w).emit (Event.created
        (filepath.Join config.Download.AttachmentsDirectory (savedName env filename w))))
      (filepath.Join config.Download.AttachmentsDirectory (savedName env filename w)) content
      = none) :
    (SaveAttachmentFromMessage env config msg filename content w).1 = none
    ∧ (SaveAttachmentFromMessage env config msg filename content w).2.uuids
        = (afterNaming filename w).uuids
    ∧ ∃ tail, (SaveAttachmentFromMessage env config msg filename content w).2.trace
        = w.trace ++ Event.created
            (filepath.Join config.Download.AttachmentsDirectory (savedName env filename w))
          :: Event.wrote
            (filepath.Join config.Download.AttachmentsDirectory (savedName env filename w))
            content :: tail := by
  unfold SaveAttachmentFromMessage
  rw [hm]
  simp only
  rw [hc]
  simp only
  rw [hcp]
  simp only
  split
  · exact ⟨rfl, rfl, [], by simp [World.emit, afterNaming_trace]⟩
  · exact ⟨rfl, rfl, [Event.chtimes (filepath.Join config.Download.AttachmentsDirectory
      (savedName env filename w)) msg.Date], by simp [World.emit, afterNaming_trace]⟩

/-- Every event that `SaveAttachmentFromMessage` adds comes after a match and is
the creation, the write or the time stamp of the one file `Join(dir, savedName)`. -/
theorem save_events (env : Env) (config : Config) (msg : Message) (filename : String)
    (content : List Nat) (w : World) (e : Event)
    (h : e ∈ eventsSince w (SaveAttachmentFromMessage env config msg filename content w).2) :
    env.matchString config.Download.Pattern filename = Except.ok true
    ∧ (e = Event.created
          (filepath.Join config.Download.AttachmentsDirectory (savedName env filename w))
      ∨ e = Event.wrote
          (filepath.Join config.Download.AttachmentsDirectory (savedName env filename w))
          content
      ∨ e = Event.chtimes
          (filepath.Join config.Download.AttachmentsDirectory (savedName env filename w))
          msg.Date) := by
  unfold SaveAttachmentFromMessage at h
  split at h
  · simp [eventsSince] at h
  · simp [eventsSince] at h
  · rename_i hm
    refine ⟨hm, ?_⟩
    simp only at h
    split at h
    · simp [eventsSince, afterNaming_trace] at h
    · split at h
      · left
        simpa [eventsSince, World.emit, afterNaming_trace] using h
      · split at h
        · have h2 : e = Event.created (filepath.Join config.Download.AttachmentsDirectory
              (savedName env filename w)) ∨ e = Event.wrote (filepath.Join
              config.Download.AttachmentsDirectory (savedName env filename w)) content := by
            simpa [eventsSince, World.emit, afterNaming_trace] using h
          exact h2.elim Or.inl fun x => Or.inr (Or.inl x)
        · simpa [eventsSince, World.emit, afterNaming_trace] using h

/-- C4: for a valid pattern, `SaveAttachmentFromMessage` decides on the filename as
received, before `/` is replaced.  When it does not match, the call returns `nil`
and leaves the state as it was: nothing is created or written.  A write happens
only after a match.  When the creation of this attachment's file and the copy of
its content succeed, the content is written to the file iff the filename matches. -/
theorem C4_saved_iff_raw_name_matches (env : Env) (config : Config) (msg : Message)
    (filename : String) (content : List Nat) (w : World) (matched : Bool)
    (hvalid : env.matchString config.Download.Pattern filename = Except.ok matched) :
    (matched = false →
        SaveAttachmentFromMessage env config msg filename content w = (none, w))
    ∧ ((∃ path c, Event.wrote path c ∈
          eventsSince w (SaveAttachmentFromMessage env config msg filename content w).2) →
        matched = true)
    ∧ (env.create (afterNaming filename w)
          (filepath.Join config.Download.AttachmentsDirectory (savedName env filename w))
          = none →
       env.copy ((afterNaming filename w).emit (Event.created
          (filepath.Join config.Download.AttachmentsDirectory (savedName env filename w))))
          (filepath.Join config.Download.AttachmentsDirectory (savedName env filename w))
          content = none →
       ((∃ path, Event.wrote path content ∈
          eventsSince w (SaveAttachmentFromMessage env config msg filename content w).2)
        ↔ matched = true)) := by
  have hback : (∃ path c, Event.wrote path c ∈
      eventsSince w (SaveAttachmentFromMessage env config msg filename content w).2) →
      matched = true := by
    rintro ⟨path, c, hmem⟩
    have hm := (save_events env config msg filename content w _ hmem).1
    rw [hvalid] at hm
    exact Except.ok.inj hm
  refine ⟨?_, hback, ?_⟩
  · intro hf
    subst hf
    simp [SaveAttachmentFromMessage, hvalid]
  · intro hcreate hcopy
    refine ⟨fun ⟨path, hmem⟩ => hback ⟨path, content, hmem⟩, fun ht => ?_⟩
    subst ht
    obtain ⟨_, _, tail, htr⟩ := save_of_match env config msg filename content w hvalid
      hcreate hcopy
    refine ⟨filepath.Join config.Download.AttachmentsDirectory (savedName env filename w), ?_⟩
    rw [eventsSince_of_append w _ _ htr]
    simp

/-- C4 at a concrete input, on a file system where `out` and `.` are directories:
the raw name `inv/a.pdf` matches the pattern `/` (the replaced name `inv_a.pdf`
would not), the file `out/inv_a.pdf` can be created, and the attachment is written. -/
theorem C4_saved_iff_raw_name_matches_witness :
    literalMatch "/" "inv/a.pdf" = Except.ok true
    ∧ literalMatch "/" (strings.Replace "inv/a.pdf" '/' '_') = Except.ok false
    ∧ eventsSince World.start (SaveAttachmentFromMessage directoryEnv (sampleConfig "/" 100)
          sampleMessage "inv/a.pdf" [1, 2] World.start).2
        = [Event.created "out/inv_a.pdf", Event.wrote "out/inv_a.pdf" [1, 2],
            Event.chtimes "out/inv_a.pdf" 1700000000]
    ∧ ((∃ path, Event.wrote path [1, 2] ∈
        eventsSince World.start (SaveAttachmentFromMessage directoryEnv (sampleConfig "/" 100)
          sampleMessage "inv/a.pdf" [1, 2] World.start).2)
      ↔ true = true) :=
  ⟨rfl, rfl, by decide,
    (C4_saved_iff_raw_name_matches directoryEnv (sampleConfig "/" 100) sampleMessage
      "inv/a.pdf" [1, 2] World.start true rfl).2.2 rfl rfl⟩

/-- Whenever `SaveAttachmentFromMessage` creates a file, it is at
`Join(dir, savedName)` and `os.Create` accepted that path. -/
theorem save_created_inv (env : Env) (config : Config) (msg : Message) (filename : String)
    (content : List Nat) (w : World) (path : String)
    (h : Event.created path ∈
      eventsSince w (SaveAttachmentFromMessage env config msg filename content w).2) :
    path = filepath.Join config.Download.AttachmentsDirectory (savedName env filename w)
    ∧ env.create (afterNaming filename w)
        (filepath.Join config.Download.AttachmentsDirectory (savedName env filename w))
        = none := by
  unfold SaveAttachmentFromMessage at h
  split at h
  · simp [eventsSince] at h
  · simp [eventsSince] at h
  · simp only at h
    split at h
    · simp [eventsSince, afterNaming_trace] at h
    · rename_i hc
      refine ⟨?_, hc⟩
      split at h
      · simpa [eventsSince, World.emit, afterNaming_trace] using h
      · split at h
        · simpa [eventsSince, World.emit, afterNaming_trace] using h
        · simpa [eventsSince, World.emit, afterNaming_trace] using h

/-- C5: the name that `SaveAttachmentFromMessage` joins to the destination directory
holds no `/`, and every file it creates is an entry directly inside the destination
directory.  The directory itself and its parent, the only other paths that a name
without `/` can be joined to (`.` and `..`), are directories, where `os.Create`
fails. -/
theorem C5_created_file_is_direct_child (env : Env) (config : Config) (msg : Message)
    (filename : String) (content : List Nat) (w : World)
    (hdir : ∀ w1, env.create w1 (filepath.Join config.Download.AttachmentsDirectory ".")
      ≠ none)
    (hparent : ∀ w1, env.create w1 (filepath.Join config.Download.AttachmentsDirectory "..")
      ≠ none) :
    '/' ∉ (savedName env filename w).data
    ∧ ∀ path, Event.created path ∈
        eventsSince w (SaveAttachmentFromMessage env config msg filename content w).2 →
      path = filepath.Join config.Download.AttachmentsDirectory (savedName env filename w)
      ∧ directChild config.Download.AttachmentsDirectory path := by
  refine ⟨savedName_no_slash env filename w, fun path h => ?_⟩
  obtain ⟨hp, hc⟩ := save_created_inv env config msg filename content w path h
  have hproper : properName (savedName env filename w) := by
    refine ⟨savedName_ne_empty env filename w, savedName_no_slash env filename w, ?_, ?_⟩
    · intro e
      rw [e] at hc
      exact hdir _ hc
    · intro e
      rw [e] at hc
      exact hparent _ hc
  refine ⟨hp, savedName env filename w, hproper, ?_⟩
  rw [hp]
  exact Join_eq_childPath _ _ hproper

/-- C5 at a concrete input: with destination `out`, the attachment `../../etc/passwd`
is created at `out/.._.._etc_passwd`. -/
theorem C5_created_file_is_direct_child_witness :
    (∀ w1, directoryEnv.create w1 (filepath.Join "out" ".") ≠ none)
    ∧ (∀ w1, directoryEnv.create w1 (filepath.Join "out" "..") ≠ none)
    ∧ eventsSince World.start (SaveAttachmentFromMessage directoryEnv (sampleConfig "passwd" 100)
        sampleMessage "../../etc/passwd" [1, 2] World.start).2
        = [Event.created "out/.._.._etc_passwd", Event.wrote "out/.._.._etc_passwd" [1, 2],
            Event.chtimes "out/.._.._etc_passwd" 1700000000]
    ∧ '/' ∉ (savedName directoryEnv "../../etc/passwd" World.start).data
    ∧ ∀ path, Event.created path ∈
        eventsSince World.start (SaveAttachmentFromMessage directoryEnv
          (sampleConfig "passwd" 100) sampleMessage "../../etc/passwd" [1, 2] World.start).2 →
      path = filepath.Join "out" (savedName directoryEnv "../../etc/passwd" World.start)
      ∧ directChild "out" path :=
  ⟨fun _ h => Option.noConfusion h, fun _ h => Option.noConfusion h, by decide,
    C5_created_file_is_direct_child directoryEnv (sampleConfig "passwd" 100) sampleMessage
      "../../etc/passwd" [1, 2] World.start (fun _ h => Option.noConfusion h)
      (fun _ h => Option.noConfusion h)⟩

/-- The names `.` and `..` hold no `/` and pass the replacement unchanged; joined to
`out` they give the directory itself and its parent.  On a file system where those
are directories the attachment is refused by `os.Create` and nothing is written. -/
theorem dot_names_are_refused :
    filepath.Join "out" "." = "out" ∧ filepath.Join "out" ".." = "."
    ∧ SaveAttachmentFromMessage directoryEnv (sampleConfig "" 100) sampleMessage ".." [1, 2]
        World.start
      = (some (GoError.wrap "failed to create file .: " (GoError.leaf "is a directory")),
          World.start) := by
  decide

/-- C6 as stated fails: with the pattern `pdf` an attachment whose filename is empty
does not match, so the call returns `nil` and nothing is created or written. -/
theorem C6_empty_name_skipped_when_unmatched :
    literalMatch "pdf" "" = Except.ok false
    ∧ SaveAttachmentFromMessage quietEnv (sampleConfig "pdf" 100) sampleMessage "" [1, 2]
        World.start = (none, World.start) :=
  ⟨rfl, by decide⟩

/-- C6, amended: for an attachment whose filename is empty, the only file that
`SaveAttachmentFromMessage` can touch is `unknown-file-<generated id>` directly
inside the destination directory, a name that is never empty.  When the empty name
does not match the pattern the attachment is skipped: the call returns `nil` and
leaves the state as it was.  When it matches and the creation of that file and the
copy succeed, the file is created and the content is written to it, and one
identifier has been drawn. -/
theorem C6_empty_name_saved_under_placeholder (env : Env) (config : Config) (msg : Message)
    (content : List Nat) (w : World) :
    unknownFileName (env.newUUID w.uuids) = "unknown-file-" ++ uuidString (env.newUUID w.uuids)
    ∧ unknownFileName (env.newUUID w.uuids) ≠ ""
    ∧ placeholderPath env config w
        = childPath config.Download.AttachmentsDirectory (unknownFileName (env.newUUID w.uuids))
    ∧ (∀ e ∈ eventsSince w (SaveAttachmentFromMessage env config msg "" content w).2,
        e = Event.created (placeholderPath env config w)
        ∨ e = Event.wrote (placeholderPath env config w) content
        ∨ e = Event.chtimes (placeholderPath env config w) msg.Date)
    ∧ (env.matchString config.Download.Pattern "" = Except.ok false →
        SaveAttachmentFromMessage env config msg "" content w = (none, w))
    ∧ (env.matchString config.Download.Pattern "" = Except.ok true →
        env.create { w with uuids := w.uuids + 1 } (placeholderPath env config w) = none →
        env.copy (World.emit { w with uuids := w.uuids + 1 }
            (Event.created (placeholderPath env config w)))
          (placeholderPath env config w) content = none →
        (SaveAttachmentFromMessage env config msg "" content w).2.uuids = w.uuids + 1
        ∧ ∃ tail, (SaveAttachmentFromMessage env config msg "" content w).2.trace
            = w.trace ++ Event.created (placeholderPath env config w)
              :: Event.wrote (placeholderPath env config w) content :: tail) := by
  have hr : strings.Replace "" '/' '_' = "" := by decide
  have hn : savedName env "" w = unknownFileName (env.newUUID w.uuids) := by
    simp [savedName, hr]
  have hw : afterNaming "" w = { w with uuids := w.uuids + 1 } := by
    simp [afterNaming, hr]
  refine ⟨rfl, (unknownFileName_proper _).1,
    Join_eq_childPath _ _ (unknownFileName_proper _), ?_, ?_, ?_⟩
  · intro e he
    have h := (save_events env config msg "" content w e he).2
    rw [hn] at h
    exact h
  · intro hm
    simp [SaveAttachmentFromMessage, hm]
  · intro hm hcreate hcopy
    have h := save_of_match env config msg "" content w hm
    rw [hn, hw] at h
    obtain ⟨_, h2, tail, h3⟩ := h hcreate hcopy
    exact ⟨h2, tail, h3⟩

/-- C6, amended, at a concrete input, on a file system where `out` and `.` are
directories: the empty pattern matches the empty name, and the content is written
to `out/unknown-file-12345678-9abc-4def-8123-456789abcd00`. -/
theorem C6_empty_name_saved_under_placeholder_witness :
    literalMatch "" "" = Except.ok true
    ∧ placeholderPath directoryEnv (sampleConfig "" 100) World.start
        = "out/unknown-file-12345678-9abc-4def-8123-456789abcd00"
    ∧ directoryEnv.create { World.start with uuids := World.start.uuids + 1 }
        (placeholderPath directoryEnv (sampleConfig "" 100) World.start) = none
    ∧ (SaveAttachmentFromMessage directoryEnv (sampleConfig "" 100) sampleMessage "" [1, 2]
        World.start).2.uuids = World.start.uuids + 1
    ∧ ∃ tail, (SaveAttachmentFromMessage directoryEnv (sampleConfig "" 100) sampleMessage ""
        [1, 2] World.start).2.trace
        = World.start.trace
          ++ Event.created (placeholderPath directoryEnv (sampleConfig "" 100) World.start)
          :: Event.wrote (placeholderPath directoryEnv (sampleConfig "" 100) World.start) [1, 2]
          :: tail :=
  ⟨rfl, by decide, by decide,
    (C6_empty_name_saved_under_placeholder directoryEnv (sampleConfig "" 100) sampleMessage
      [1, 2] World.start).2.2.2.2.2 rfl (by decide) rfl⟩

/-! ## Page fetch stream -/

/-- The function `SaveAttachmentFromMessage` only adds file-system events to the trace. -/
theorem save_trace (env : Env) (config : Config) (msg : Message) (filename : String)
    (content : List Nat) (w : World) :
    ∃ evs, (SaveAttachmentFromMessage env config msg filename content w).2.trace
        = w.trace ++ evs ∧ ∀ e ∈ evs, e.isFile = true := by
  unfold SaveAttachmentFromMessage
  split
  · exact ⟨[], by simp⟩
  · exact ⟨[], by simp⟩
  · simp only
    generalize filepath.Join config.Download.AttachmentsDirectory (savedName env filename w)
      = path
    split
    · exact ⟨[], by simp [afterNaming_trace]⟩
    · split
      · exact ⟨[Event.created path], by simp [World.emit, afterNaming_trace],
          by simp [Event.isFile]⟩
      · split
        · exact ⟨[Event.created path, Event.wrote path content],
            by simp [World.emit, afterNaming_trace], by simp [Event.isFile]⟩
        · exact ⟨[Event.created path, Event.wrote path content, Event.chtimes path msg.Date],
            by simp [World.emit, afterNaming_trace], by simp [Event.isFile]⟩

/-- The loop over the parts only adds file-system events to the trace. -/
theorem processParts_trace (env : Env) (config : Config) (msg : Message)
    (last : Option GoError) (parts : List Part) :
    ∀ w : World, ∃ evs, (processParts env config msg last parts w).2.trace = w.trace ++ evs
      ∧ ∀ e ∈ evs, e.isFile = true := by
  induction parts with
  | nil =>
    intro w
    unfold processParts
    split <;> exact ⟨[], by simp⟩
  | cons part rest ih =>
    intro w
    cases part with
    | other =>
      unfold processParts
      exact ih w
    | attachment filename content =>
      unfold processParts
      obtain ⟨evs, h1, h2⟩ := save_trace env config msg filename content w
      split
      · rename_i err w1 hs
        rw [hs] at h1
        exact ⟨evs, h1, h2⟩
      · rename_i w1 hs
        rw [hs] at h1
        obtain ⟨evs2, h3, h4⟩ := ih w1
        refine ⟨evs ++ evs2, ?_, ?_⟩
        · rw [h3, h1, List.append_assoc]
        · intro e he
          rcases List.mem_append.mp he with h | h
          · exact h2 e h
          · exact h4 e h

/-- The function `ProcessMessage` only adds file-system events to the trace. -/
theorem ProcessMessage_trace (env : Env) (config : Config) (msg : Message) (w : World) :
    ∃ evs, (ProcessMessage env config msg w).2.trace = w.trace ++ evs
      ∧ ∀ e ∈ evs, e.isFile = true := by
  unfold ProcessMessage
  split
  · exact ⟨[], by simp⟩
  · exact ⟨[], by simp⟩
  · exact processParts_trace env config msg _ _ w

/-- File-system events mark no message as processed. -/
theorem processedUids_of_file (evs : List Event) (h : ∀ e ∈ evs, e.isFile = true) :
    processedUids evs = [] := by
  induction evs with
  | nil => rfl
  | cons e rest ih =>
    have he := h e (by simp)
    have hr := ih fun x hx => h x (by simp [hx])
    cases e <;> simp_all [processedUids, Event.isFile]

/-- The marks of two runs of events, one after the other. -/
theorem processedUids_append (a b : List Event) :
    processedUids (a ++ b) = processedUids a ++ processedUids b := by
  simp [processedUids, List.filterMap_append]

/-- When the loop over the delivered messages ends without error, the events it
added mark every delivered message as processed, in arrival order, and the fetch
status has not been read. -/
theorem drainMessages_trace (env : Env) (config : Config) (msgs : List Message) :
    ∀ w w1 : World, drainMessages env config msgs w = (Result.ok, w1) →
      ∃ mid, w1.trace = w.trace ++ mid
        ∧ processedUids mid = msgs.map Message.Uid
        ∧ Event.fetchStatusRead ∉ mid := by
  induction msgs with
  | nil =>
    intro w w1 h
    simp only [drainMessages, Prod.mk.injEq, true_and] at h
    subst h
    exact ⟨[], by simp, rfl, by simp⟩
  | cons msg rest ih =>
    intro w w1 h
    unfold drainMessages at h
    obtain ⟨evs, h1, h2⟩ := ProcessMessage_trace env config msg w
    split at h
    · rename_i w2 hp
      rw [hp] at h1
      simp only at h1
      obtain ⟨mid, h3, h4, h5⟩ := ih _ _ h
      refine ⟨evs ++ Event.processed msg.Uid :: mid, ?_, ?_, ?_⟩
      · rw [h3]
        simp [World.emit, h1]
      · rw [processedUids_append, processedUids_of_file evs h2]
        simp only [List.nil_append, List.map_cons]
        rw [← h4]
        simp [processedUids]
      · intro hmem
        rcases List.mem_append.mp hmem with hm | hm
        · have := h2 _ hm
          simp [Event.isFile] at this
        · rcases List.mem_cons.mp hm with hm | hm
          · cases hm
          · exact h5 hm
    · simp at h
    · simp at h

/-- C8: when the fetch has run (its message channel was made) and every message
that it delivered is processed without error, `DownloadAttachmentsFromPage` returns the fetch command's status: an error wrapping
the fetch error (the page has failed) if the command ended with an error, `nil`
otherwise.  The status is read last, after every delivered message has been marked
as processed, in arrival order. -/
theorem C8_fetch_status_decides_page (env : Env) (config : Config) (frm upto : Nat)
    (w : World)
    (hmake : env.makeChan w (messagesCapacity frm upto) = true)
    (hdrain : (drainMessages env config (env.fetch w frm upto).1
      (w.emit (Event.fetchIssued frm upto (messagesCapacity frm upto)))).1 = Result.ok) :
    (∀ err, (env.fetch w frm upto).2 = some err →
      (DownloadAttachmentsFromPage env config frm upto w).1
        = Result.error (GoError.wrap
          ("failed to fetch messages in range " ++ toString frm ++ " - " ++ toString upto
            ++ ": ") err))
    ∧ ((env.fetch w frm upto).2 = none →
      (DownloadAttachmentsFromPage env config frm upto w).1 = Result.ok)
    ∧ ∃ mid, (DownloadAttachmentsFromPage env config frm upto w).2.trace
        = w.trace ++ Event.fetchIssued frm upto (messagesCapacity frm upto) :: mid
          ++ [Event.fetchStatusRead]
      ∧ processedUids mid = (env.fetch w frm upto).1.map Message.Uid
      ∧ Event.fetchStatusRead ∉ mid := by
  rcases hd : drainMessages env config (env.fetch w frm upto).1
    (w.emit (Event.fetchIssued frm upto (messagesCapacity frm upto))) with ⟨r, w1⟩
  rw [hd] at hdrain
  simp only at hdrain
  subst hdrain
  obtain ⟨mid, h1, h2, h3⟩ := drainMessages_trace env config _ _ _ hd
  have key : ∀ st, (env.fetch w frm upto).2 = st →
      DownloadAttachmentsFromPage env config frm upto w
        = (match st with
            | some err => Result.error (GoError.wrap
                ("failed to fetch messages in range " ++ toString frm ++ " - "
                  ++ toString upto ++ ": ") err)
            | none => Result.ok,
           w1.emit Event.fetchStatusRead) := by
    intro st hst
    unfold DownloadAttachmentsFromPage
    simp only [hmake, if_true, hd, hst]
    cases st <;> rfl
  refine ⟨fun err he => by rw [key _ he], fun he => by rw [key _ he], mid, ?_, h2, h3⟩
  rw [key _ rfl]
  simp [World.emit, h1]

/-- C8 at a concrete input: two messages are delivered and processed (one attachment
matches `pdf` and is written), then the fetch reports a reset connection: the page
fails with an error wrapping it, read after both messages. -/
theorem C8_fetch_status_decides_page_witness :
    DownloadAttachmentsFromPage resetEnv (sampleConfig "pdf" 100) 1 101 World.start
      = (Result.error (GoError.wrap "failed to fetch messages in range 1 - 101: "
          (GoError.leaf "connection reset")),
        { trace := [Event.fetchIssued 1 101 100, Event.created "out/report.pdf",
            Event.wrote "out/report.pdf" [37, 80], Event.chtimes "out/report.pdf" 1700000000,
            Event.processed 11, Event.processed 12, Event.fetchStatusRead],
          uuids := 0 })
    ∧ ∀ err, (resetEnv.fetch World.start 1 101).2 = some err →
      (DownloadAttachmentsFromPage resetEnv (sampleConfig "pdf" 100) 1 101 World.start).1
        = Result.error (GoError.wrap
          ("failed to fetch messages in range " ++ toString 1 ++ " - " ++ toString 101
            ++ ": ") err) :=
  ⟨by decide,
    (C8_fetch_status_decides_page resetEnv (sampleConfig "pdf" 100) 1 101 World.start
      (by decide) (by decide)).1⟩

end ImapAttachmentDownload
